import Mathlib

/-!
Shallow embedding of the particle-effects core of this repository: the
`SceneManager` class of the scene-manager source file (effect switching,
procedural position generators, per-frame effect state machines, the
birthday-song audio guard) and the hand-gesture classification of the
controls component.

Modelling conventions:
* JavaScript numbers are modelled by exact rationals (`ℚ`).  The claims
  settled here are structural (lengths, state-machine transitions,
  invariants, monotonicity), not about floating-point rounding.
* The transcendental `Math` functions (`PI`, `sin`, `cos`, `acos`, `sqrt`)
  have no rational counterpart; the embedding is parametric in an oracle
  `JsMath` supplying them, so every theorem holds for the actual `Math`.
* The `Math.random()` stream is abstracted as an indexed family of draws
  (one slot family per particle and call site); the source consumes a
  single sequential stream, which is an arbitrary sequence of numbers, so
  the indexed family is an equivalent presentation of the same arbitrary
  data.
* Typed-array allocation follows ECMAScript `ToIndex`: a fractional length
  argument is truncated (relevant to the cat-cake effect, which passes
  `count / 4` to the canvas generator).
-/

/-- A 3-component vector: one particle's slot of a flat `Float32Array`
(position, velocity) viewed per particle. -/
structure V3 where
  x : ℚ
  y : ℚ
  z : ℚ
deriving DecidableEq

/-- An RGB color as in `THREE.Color`: components in `[0,1]`. -/
structure Color3 where
  r : ℚ
  g : ℚ
  b : ℚ
deriving DecidableEq

/-- `THREE.Color.lerp`: every component moves by `(target − this) × alpha`. -/
def lerpColor (a b : Color3) (t : ℚ) : Color3 :=
  ⟨a.r + (b.r - a.r) * t, a.g + (b.g - a.g) * t, a.b + (b.b - a.b) * t⟩

/-- Abstract oracle for the transcendental `Math` functions used by the
generators; the embedding (and every theorem) is parametric in it. -/
structure JsMath where
  pi : ℚ
  sin : ℚ → ℚ
  cos : ℚ → ℚ
  acos : ℚ → ℚ
  sqrt : ℚ → ℚ

/-- A trivial oracle instance, used only to evaluate witnesses. -/
def zeroJsMath : JsMath :=
  ⟨0, fun _ => 0, fun _ => 0, fun _ => 0, fun _ => 0⟩

/-- The per-frame exponential smoothing update used by every blended effect:
`current += (target - current) * rate` (rates 0.05, 0.08, 0.15 in the
source). -/
def smoothStep (rate target current : ℚ) : ℚ :=
  current + (target - current) * rate

/-- Distance to the target after one smoothing step scales by exactly
`1 - rate`. -/
theorem smoothStep_dist (rate target c : ℚ) (h1 : rate ≤ 1) :
    |target - smoothStep rate target c| = (1 - rate) * |target - c| := by
  have key : target - smoothStep rate target c = (target - c) * (1 - rate) := by
    unfold smoothStep; ring
  rw [key, abs_mul, abs_of_nonneg (by linarith : (0:ℚ) ≤ 1 - rate), mul_comm]

/-- Iterating the smoothing step scales the distance by `(1 - rate) ^ n`. -/
theorem smoothStep_iterate_dist (rate target c : ℚ) (h1 : rate ≤ 1) (n : ℕ) :
    |target - (smoothStep rate target)^[n] c| = (1 - rate) ^ n * |target - c| := by
  induction n with
  | zero => simp
  | succ m ih =>
      rw [Function.iterate_succ_apply', smoothStep_dist rate target _ h1, ih,
        pow_succ]
      ring

/-- For `0 < q < 1` over `ℚ`, `q ^ n` is eventually below any positive
bound once multiplied by a fixed constant (Bernoulli-style estimate). -/
theorem pow_mul_eventually_lt (q D ε : ℚ) (hq0 : 0 < q) (hq1 : q < 1)
    (hD : 0 ≤ D) (hε : 0 < ε) : ∃ N : ℕ, ∀ n : ℕ, N ≤ n → q ^ n * D < ε := by
  set s : ℚ := (1 - q) / q with hs
  have hs0 : 0 < s := div_pos (by linarith) hq0
  have hq1s : (1 + s) * q = 1 := by
    field_simp [hs]
  obtain ⟨N, hN⟩ := exists_nat_gt (D / (s * ε))
  have hN0 : 0 < (N : ℚ) :=
    lt_of_le_of_lt (div_nonneg hD (mul_nonneg hs0.le hε.le)) hN
  refine ⟨N, fun n hn => ?_⟩
  have hn0 : (N : ℚ) ≤ (n : ℚ) := by exact_mod_cast hn
  have hbern : 1 + (n : ℚ) * s ≤ (1 + s) ^ n := by
    have := one_add_mul_le_pow (a := s) (by linarith) n
    simpa using this
  have hqn0 : 0 < q ^ n := pow_pos hq0 n
  have hpow1 : (1 + s) ^ n * q ^ n = 1 := by
    rw [← mul_pow, hq1s, one_pow]
  have hkey : (1 + (n : ℚ) * s) * (q ^ n * D) ≤ D := by
    calc (1 + (n : ℚ) * s) * (q ^ n * D)
        ≤ (1 + s) ^ n * (q ^ n * D) := by
          apply mul_le_mul_of_nonneg_right hbern (by positivity)
      _ = ((1 + s) ^ n * q ^ n) * D := by ring
      _ = D := by rw [hpow1, one_mul]
  have hDlt : D < (N : ℚ) * s * ε := by
    have := (div_lt_iff₀ (by positivity : 0 < s * ε)).mp hN
    linarith [this]
  have hns : (N : ℚ) * s * ε ≤ (1 + (n : ℚ) * s) * ε := by
    have : (N : ℚ) * s ≤ 1 + (n : ℚ) * s := by nlinarith
    nlinarith
  have hpos : 0 < 1 + (n : ℚ) * s := by positivity
  nlinarith [hkey, hDlt, hns]

/-- C7: the scalar smoothing step `current += (target − current) × r` of the
effect update callbacks is a contraction toward the fixed target: with
`0 < r ≤ 1` it never overshoots the target (the updated value stays on the
same side), and with `r < 1` each application multiplies the distance to the
target by exactly `1 − r`, so repeated application converges to the target
within any positive tolerance after finitely many steps. -/
theorem smoothing_contraction (r T c : ℚ) (hr0 : 0 < r) (hr1 : r ≤ 1) :
    ((c ≤ T → smoothStep r T c ≤ T) ∧ (T ≤ c → T ≤ smoothStep r T c)) ∧
    (r < 1 →
      (|T - smoothStep r T c| = (1 - r) * |T - c|) ∧
      (∀ ε : ℚ, 0 < ε →
        ∃ N : ℕ, ∀ n : ℕ, N ≤ n → |T - (smoothStep r T)^[n] c| < ε)) := by
  refine ⟨⟨fun hc => ?_, fun hc => ?_⟩, fun hlt => ⟨smoothStep_dist r T c hr1, ?_⟩⟩
  · unfold smoothStep; nlinarith
  · unfold smoothStep; nlinarith
  · intro ε hε
    obtain ⟨N, hN⟩ := pow_mul_eventually_lt (1 - r) |T - c| ε
      (by linarith) (by linarith) (abs_nonneg _) hε
    exact ⟨N, fun n hn => by
      rw [smoothStep_iterate_dist r T c hr1 n]; exact hN n hn⟩

/-- Witness for `smoothing_contraction` at `r = 1/2`, `T = 10`, `c = 0`. -/
theorem smoothing_contraction_witness :
    (0:ℚ) < 1/2 ∧ ((0:ℚ) ≤ 10 → smoothStep (1/2) 10 0 ≤ 10) :=
  ⟨by norm_num,
    ((smoothing_contraction (1/2) 10 0 (by norm_num) (by norm_num)).1.1)⟩

/-! ## Rain effect (`initRain`) and the rain mode of the cat-cake effect -/

/-- Per-frame update of a rain particle's y-coordinate (`initRain` update
callback): fall by `velocities[i] * config.speed`, and if the result lies
below the lower bound -100 reset it to the upper bound 100 within the same
frame. -/
def rainStepY (speed v y : ℚ) : ℚ :=
  let y1 := y - v * speed
  if y1 < -100 then 100 else y1

/-- Full per-particle update of `initRain`: only the y-coordinate changes. -/
def rainStep (speed v : ℚ) (p : V3) : V3 :=
  ⟨p.x, rainStepY speed v p.y, p.z⟩

/-- Per-particle update of the rain mode inside `initCatCake`: same fall and
same-frame reset for y, but x and z are re-randomized on reset. -/
def catCakeRainStep (r : ℕ → ℚ) (speed v : ℚ) (p : V3) : V3 :=
  let y1 := p.y - v * speed
  if y1 < -100 then ⟨(r 0 - 1/2) * 200, 100, (r 1 - 1/2) * 200⟩
  else ⟨p.x, y1, p.z⟩

/-- From any starting height, iterating the rain update reaches a reset
(value exactly 100) within finitely many frames. -/
theorem rainStepY_reaches_reset (speed v : ℚ) (hv : 0 < v * speed) (y : ℚ) :
    ∃ k : ℕ, 1 ≤ k ∧ (rainStepY speed v)^[k] y = 100 := by
  obtain ⟨m, hm⟩ := exists_nat_gt ((y + 100) / (v * speed))
  have hy : y < -100 + (m + 1 : ℚ) * (v * speed) := by
    have h1 : y + 100 < (m : ℚ) * (v * speed) :=
      (div_lt_iff₀ hv).mp hm
    nlinarith
  clear hm
  induction m generalizing y with
  | zero =>
      refine ⟨1, le_refl 1, ?_⟩
      have : y - v * speed < -100 := by push_cast at hy; linarith
      simp [rainStepY, this]
  | succ m ih =>
      by_cases hreset : y - v * speed < -100
      · exact ⟨1, le_refl 1, by simp [rainStepY, hreset]⟩
      · have hstep : rainStepY speed v y = y - v * speed := by
          simp [rainStepY, hreset]
        have hy1 : y - v * speed < -100 + (m + 1 : ℚ) * (v * speed) := by
          push_cast at hy ⊢; nlinarith
        obtain ⟨k, hk1, hk⟩ := ih (y - v * speed) hy1
        refine ⟨k + 1, by omega, ?_⟩
        rw [Function.iterate_succ_apply, hstep, hk]

/-- C6: looping invariant of the rain effects.  On every advance a particle
falls by `velocity × speed`; if that puts it below the lower bound -100 it
is reset to the upper bound 100 within the same advance, so after every
advance all y-positions are at least -100; the intermediate (pre-reset)
value never lies more than one frame step `velocity × speed` below the
bound; the fall/reset cycle repeats indefinitely (resets occur beyond any
frame index); and the cat-cake rain mode has the same y-dynamics. -/
theorem rain_looping_invariant (speed v : ℚ) (hv : 0 < v * speed) :
    (∀ y : ℚ, (¬ y - v * speed < -100 → rainStepY speed v y = y - v * speed) ∧
      (y - v * speed < -100 → rainStepY speed v y = 100)) ∧
    (∀ y : ℚ, -100 ≤ rainStepY speed v y) ∧
    (∀ y : ℚ, -100 ≤ y → -100 - v * speed ≤ y - v * speed) ∧
    (∀ y : ℚ, ∀ n : ℕ, ∃ k : ℕ, n ≤ k ∧ (rainStepY speed v)^[k] y = 100) ∧
    (∀ (r : ℕ → ℚ) (p : V3),
      (catCakeRainStep r speed v p).y = rainStepY speed v p.y ∧
      (catCakeRainStep r speed v p).x =
        (if p.y - v * speed < -100 then (r 0 - 1/2) * 200 else p.x)) := by
  refine ⟨fun y => ⟨fun h => by simp [rainStepY, h], fun h => by simp [rainStepY, h]⟩,
    fun y => ?_, fun y hy => by linarith, fun y n => ?_, fun r p => ?_⟩
  · by_cases h : y - v * speed < -100 <;> simp [rainStepY, h] <;> linarith
  · obtain ⟨k, hk1, hk⟩ := rainStepY_reaches_reset speed v hv ((rainStepY speed v)^[n] y)
    exact ⟨k + n, by omega, by rw [Function.iterate_add_apply]; exact hk⟩
  · by_cases h : p.y - v * speed < -100 <;> simp [catCakeRainStep, rainStepY, h]

/-- Witness for `rain_looping_invariant` at `speed = 1`, `v = 1/2`: a
particle at height `-99.8` is reset to 100 on the very next advance. -/
theorem rain_looping_invariant_witness :
    (0:ℚ) < (1/2) * 1 ∧ rainStepY 1 (1/2) (-99 - 4/5) = 100 := by
  refine ⟨by norm_num, ?_⟩
  have h := ((rain_looping_invariant 1 (1/2) (by norm_num)).1 (-99 - 4/5)).2
    (by norm_num)
  exact h

/-! ## Heart-firework effect (`initHeartFirework`) -/

/-- The sky-blue launch color `new THREE.Color(0x87CEEB)`. -/
def skyBlue : Color3 := ⟨135/255, 206/255, 235/255⟩

/-- `setExplosionVelocity`: a random outward velocity with spherical-uniform
direction (inverse-cosine sampling) and speed in `[0.5, 2)`; `u1 u2 u3` are
the three `Math.random()` draws it consumes. -/
def explosionVelocity (o : JsMath) (u1 u2 u3 : ℚ) : V3 :=
  let theta := u1 * (o.pi * 2)
  let phi := o.acos (u2 * 2 - 1)
  let speed := u3 * (3/2) + 1/2
  ⟨o.sin phi * o.cos theta * speed, o.sin phi * o.sin theta * speed,
    o.cos phi * speed⟩

/-- Mutable state of the heart-firework effect: phase (0 = IDLE heart,
1 = LAUNCH, 2 = EXPLODE), the launch-height accumulator, and the per-particle
position / color / explosion-velocity buffers. -/
structure FireworkState where
  phase : ℕ
  launchHeight : ℚ
  pos : ℕ → V3
  col : ℕ → Color3
  vel : ℕ → V3

/-- One call of the `initHeartFirework` update callback, for gesture signal
`g` (the shared `handStateIsActive` flag) and per-frame random draws
`r particle slot`.  Transition logic, then the branch of the (possibly
updated) phase:
* IDLE: smooth positions/colors toward the heart targets at rate 0.08;
* LAUNCH: bump `launchHeight` by 1.5, smooth toward the rising column at
  rate 0.15, and on `launchHeight > 60` enter EXPLODE with freshly sampled
  explosion velocities (draw slots 1-3 of each particle);
* EXPLODE: integrate velocity, apply gravity (-0.02 on y) then damping
  (×0.98), and, only while the gesture is held, respawn particles fallen
  below y = -100 at the launch origin with a fresh velocity (slots 3-5). -/
def stepFirework (o : JsMath) (count : ℕ) (heartPos : ℕ → V3)
    (heartCol : ℕ → Color3) (r : ℕ → ℕ → ℚ) (g : Bool)
    (s : FireworkState) : FireworkState :=
  let p0 : ℕ := if g then (if s.phase = 0 then 1 else s.phase) else 0
  let lh0 : ℚ := if g ∧ s.phase = 0 then 0 else s.launchHeight
  if p0 = 0 then
    { phase := 0, launchHeight := lh0,
      pos := fun i => if i < count then
          ⟨smoothStep (2/25) (heartPos i).x (s.pos i).x,
           smoothStep (2/25) (heartPos i).y (s.pos i).y,
           smoothStep (2/25) (heartPos i).z (s.pos i).z⟩
        else s.pos i,
      col := fun i => if i < count then
          ⟨smoothStep (2/25) (heartCol i).r (s.col i).r,
           smoothStep (2/25) (heartCol i).g (s.col i).g,
           smoothStep (2/25) (heartCol i).b (s.col i).b⟩
        else s.col i,
      vel := s.vel }
  else if p0 = 1 then
    let lh := lh0 + 3/2
    let pos1 : ℕ → V3 := fun i => if i < count then
        let ty := (r i 0 - 1/2) * 5
        ⟨smoothStep (3/20) 0 (s.pos i).x,
         smoothStep (3/20) (lh + ty) (s.pos i).y,
         smoothStep (3/20) 0 (s.pos i).z⟩
      else s.pos i
    let col1 : ℕ → Color3 := fun i => if i < count then
        ⟨smoothStep (3/20) skyBlue.r (s.col i).r,
         smoothStep (3/20) skyBlue.g (s.col i).g,
         smoothStep (3/20) skyBlue.b (s.col i).b⟩
      else s.col i
    if 60 < lh then
      { phase := 2, launchHeight := lh, pos := pos1, col := col1,
        vel := fun i => if i < count then
            explosionVelocity o (r i 1) (r i 2) (r i 3)
          else s.vel i }
    else
      { phase := 1, launchHeight := lh, pos := pos1, col := col1,
        vel := s.vel }
  else
    { phase := p0, launchHeight := lh0,
      pos := fun i => if i < count then
          let p := s.pos i
          let v := s.vel i
          if p.y + v.y < -100 ∧ g then
            ⟨(r i 0 - 1/2) * 2, 60 + (r i 1 - 1/2) * 5, (r i 2 - 1/2) * 2⟩
          else ⟨p.x + v.x, p.y + v.y, p.z + v.z⟩
        else s.pos i,
      col := fun i => if i < count then
          (if (s.pos i).y + (s.vel i).y < -100 ∧ g then skyBlue else s.col i)
        else s.col i,
      vel := fun i => if i < count then
          if (s.pos i).y + (s.vel i).y < -100 ∧ g then
            explosionVelocity o (r i 3) (r i 4) (r i 5)
          else
            ⟨(s.vel i).x * (49/50), ((s.vel i).y - 1/50) * (49/50),
             (s.vel i).z * (49/50)⟩
        else s.vel i }

/-- `k` consecutive update calls with constant gesture signal `g`; frame
`j` (0-based) uses the random draws `rs j`. -/
def stepsFirework (o : JsMath) (count : ℕ) (heartPos : ℕ → V3)
    (heartCol : ℕ → Color3) (rs : ℕ → ℕ → ℕ → ℚ) (g : Bool) :
    ℕ → FireworkState → FireworkState
  | 0, s => s
  | k + 1, s =>
      stepFirework o count heartPos heartCol (rs k) g
        (stepsFirework o count heartPos heartCol rs g k s)

/-- With the gesture signal false, any update call lands in the IDLE branch:
phase becomes 0 and every particle is smoothed toward the heart targets. -/
theorem stepFirework_false (o : JsMath) (count : ℕ) (hp : ℕ → V3)
    (hc : ℕ → Color3) (r : ℕ → ℕ → ℚ) (s : FireworkState) :
    (stepFirework o count hp hc r false s).phase = 0 ∧
    (stepFirework o count hp hc r false s).launchHeight = s.launchHeight ∧
    (∀ i : ℕ, i < count →
      (stepFirework o count hp hc r false s).pos i =
        ⟨smoothStep (2/25) (hp i).x (s.pos i).x,
         smoothStep (2/25) (hp i).y (s.pos i).y,
         smoothStep (2/25) (hp i).z (s.pos i).z⟩) := by
  refine ⟨by simp [stepFirework], by simp [stepFirework], fun i hi => ?_⟩
  simp [stepFirework, hi]

/-- The IDLE → LAUNCH transition: a gesture-true update call from phase 0
sets phase 1 and leaves the accumulator at exactly 1.5 (it is reset to 0 and
then incremented within the same call), irrespective of the accumulator's
previous value; explosion velocities are untouched. -/
theorem stepFirework_phase0_true (o : JsMath) (count : ℕ) (hp : ℕ → V3)
    (hc : ℕ → Color3) (r : ℕ → ℕ → ℚ) (s : FireworkState)
    (h : s.phase = 0) :
    (stepFirework o count hp hc r true s).phase = 1 ∧
    (stepFirework o count hp hc r true s).launchHeight = 3/2 ∧
    (stepFirework o count hp hc r true s).vel = s.vel := by
  refine ⟨?_, ?_, ?_⟩ <;> · simp [stepFirework, h]; norm_num

/-- A gesture-true update call in LAUNCH: the accumulator grows by exactly
1.5; the phase flips to EXPLODE exactly when the grown accumulator exceeds
60, in which case every particle receives a freshly sampled explosion
velocity from this frame's draws. -/
theorem stepFirework_phase1_true (o : JsMath) (count : ℕ) (hp : ℕ → V3)
    (hc : ℕ → Color3) (r : ℕ → ℕ → ℚ) (s : FireworkState)
    (h : s.phase = 1) :
    (stepFirework o count hp hc r true s).launchHeight
        = s.launchHeight + 3/2 ∧
    (stepFirework o count hp hc r true s).phase
        = (if 60 < s.launchHeight + 3/2 then 2 else 1) ∧
    (60 < s.launchHeight + 3/2 → ∀ i : ℕ, i < count →
      (stepFirework o count hp hc r true s).vel i
        = explosionVelocity o (r i 1) (r i 2) (r i 3)) := by
  refine ⟨?_, ?_, fun hgt i hi => ?_⟩
  · by_cases hc60 : (60:ℚ) < s.launchHeight + 3/2 <;> simp [stepFirework, h, hc60]
  · by_cases hc60 : (60:ℚ) < s.launchHeight + 3/2 <;> simp [stepFirework, h, hc60]
  · simp [stepFirework, h, hgt, hi]

/-- A gesture-true update call in EXPLODE keeps phase 2 and applies the
per-particle explosion kinematics. -/
theorem stepFirework_phase2_true (o : JsMath) (count : ℕ) (hp : ℕ → V3)
    (hc : ℕ → Color3) (r : ℕ → ℕ → ℚ) (s : FireworkState)
    (h : s.phase = 2) :
    (stepFirework o count hp hc r true s).phase = 2 ∧
    (∀ i : ℕ, i < count → (s.pos i).y + (s.vel i).y < -100 →
      (stepFirework o count hp hc r true s).pos i
          = ⟨(r i 0 - 1/2) * 2, 60 + (r i 1 - 1/2) * 5, (r i 2 - 1/2) * 2⟩ ∧
      (stepFirework o count hp hc r true s).vel i
          = explosionVelocity o (r i 3) (r i 4) (r i 5) ∧
      (stepFirework o count hp hc r true s).col i = skyBlue) ∧
    (∀ i : ℕ, i < count → ¬ (s.pos i).y + (s.vel i).y < -100 →
      (stepFirework o count hp hc r true s).pos i
          = ⟨(s.pos i).x + (s.vel i).x, (s.pos i).y + (s.vel i).y,
             (s.pos i).z + (s.vel i).z⟩ ∧
      (stepFirework o count hp hc r true s).vel i
          = ⟨(s.vel i).x * (49/50), ((s.vel i).y - 1/50) * (49/50),
             (s.vel i).z * (49/50)⟩) := by
  refine ⟨by simp [stepFirework, h], fun i hi hfall => ?_, fun i hi hstay => ?_⟩
  · refine ⟨?_, ?_, ?_⟩ <;> simp [stepFirework, h, hi, hfall]
  · refine ⟨?_, ?_⟩ <;> simp [stepFirework, h, hi, hstay]


/-- Unfolding equation for the frame iteration. -/
theorem stepsFirework_succ (o : JsMath) (count : ℕ) (hp : ℕ → V3)
    (hc : ℕ → Color3) (rs : ℕ → ℕ → ℕ → ℚ) (g : Bool) (k : ℕ)
    (s : FireworkState) :
    stepsFirework o count hp hc rs g (k + 1) s
      = stepFirework o count hp hc (rs k) g
          (stepsFirework o count hp hc rs g k s) := rfl

/-- Holding the gesture from IDLE: after `k` update calls (`1 ≤ k ≤ 40`) the
effect is still in LAUNCH with accumulator exactly `1.5 × k`. -/
theorem stepsFirework_launch_run (o : JsMath) (count : ℕ) (hp : ℕ → V3)
    (hc : ℕ → Color3) (rs : ℕ → ℕ → ℕ → ℚ) (s : FireworkState)
    (hs : s.phase = 0) :
    ∀ k : ℕ, 1 ≤ k → k ≤ 40 →
      (stepsFirework o count hp hc rs true k s).phase = 1 ∧
      (stepsFirework o count hp hc rs true k s).launchHeight = (3/2) * k := by
  intro k
  induction k with
  | zero => omega
  | succ m ih =>
      intro _ hle
      rcases Nat.eq_zero_or_pos m with hm | hm
      · subst hm
        have h0 := stepFirework_phase0_true o count hp hc (rs 0) s hs
        rw [stepsFirework_succ]
        have hz : stepsFirework o count hp hc rs true 0 s = s := rfl
        rw [hz]
        exact ⟨h0.1, by rw [h0.2.1]; norm_num⟩
      · obtain ⟨hph, hlh⟩ := ih hm (by omega)
        have h1 := stepFirework_phase1_true o count hp hc (rs m)
          (stepsFirework o count hp hc rs true m s) hph
        have hbound : ¬ (60:ℚ) <
            (stepsFirework o count hp hc rs true m s).launchHeight + 3/2 := by
          rw [hlh]
          have hm40 : (m:ℚ) ≤ 39 := by exact_mod_cast (by omega : m ≤ 39)
          nlinarith
        rw [stepsFirework_succ]
        refine ⟨?_, ?_⟩
        · rw [h1.2.1, if_neg hbound]
        · rw [h1.1, hlh]; push_cast; ring

/-- C1 (amended): holding the gesture from IDLE, every update call while in
LAUNCH (including the transition call itself, which resets the accumulator
to 0 before incrementing) grows the accumulator by exactly 1.5, so after `k`
calls it equals `1.5 × k`; the phase is LAUNCH until the accumulator exceeds
the threshold 60 and becomes EXPLODE on exactly that call (`k = 41`), at
which point every particle receives a freshly sampled random explosion
velocity from that frame's draws; a gesture-false call while in LAUNCH
returns the phase to IDLE on that call; and a later re-entry into LAUNCH
leaves the accumulator at exactly 1.5 after the re-entry call, independent
of any previously accumulated progress. -/
theorem heart_firework_phase_machine (o : JsMath) (count : ℕ)
    (hp : ℕ → V3) (hc : ℕ → Color3) (rs : ℕ → ℕ → ℕ → ℚ)
    (r : ℕ → ℕ → ℚ) (s s1 : FireworkState)
    (hs : s.phase = 0) (hs1 : s1.phase = 1) :
    (∀ k : ℕ, 1 ≤ k → k ≤ 41 →
      (stepsFirework o count hp hc rs true k s).launchHeight = (3/2) * k ∧
      (stepsFirework o count hp hc rs true k s).phase
          = (if 60 < (3/2 : ℚ) * k then 2 else 1)) ∧
    (∀ i : ℕ, i < count →
      (stepsFirework o count hp hc rs true 41 s).vel i
        = explosionVelocity o (rs 40 i 1) (rs 40 i 2) (rs 40 i 3)) ∧
    ((stepFirework o count hp hc r false s1).phase = 0) ∧
    ((stepFirework o count hp hc r true s).phase = 1 ∧
     (stepFirework o count hp hc r true s).launchHeight = 3/2) := by
  have h40 := stepsFirework_launch_run o count hp hc rs s hs
  have hph40 := (h40 40 (by omega) (by omega)).1
  have hlh40 : (stepsFirework o count hp hc rs true 40 s).launchHeight
      = 60 := by
    rw [(h40 40 (by omega) (by omega)).2]; norm_num
  have hstep41 := stepFirework_phase1_true o count hp hc (rs 40)
    (stepsFirework o count hp hc rs true 40 s) hph40
  have hgt : (60:ℚ) <
      (stepsFirework o count hp hc rs true 40 s).launchHeight + 3/2 := by
    rw [hlh40]; norm_num
  have he41 : (41:ℕ) = 40 + 1 := rfl
  refine ⟨fun k hk1 hk41 => ?_, fun i hi => ?_,
    (stepFirework_false o count hp hc r s1).1,
    (stepFirework_phase0_true o count hp hc r s hs).1,
    (stepFirework_phase0_true o count hp hc r s hs).2.1⟩
  · by_cases hle : k ≤ 40
    · obtain ⟨hph, hlh⟩ := h40 k hk1 hle
      have hnot : ¬ (60:ℚ) < (3/2) * (k:ℚ) := by
        have hk40 : (k:ℚ) ≤ 40 := by exact_mod_cast hle
        have h1 := mul_le_mul_of_nonneg_left hk40 (by norm_num : (0:ℚ) ≤ 3/2)
        have h2 : (3/2:ℚ) * 40 = 60 := by norm_num
        exact not_lt.mpr (h2 ▸ h1)
      exact ⟨hlh, by rw [hph, if_neg hnot]⟩
    · have hk : k = 41 := by omega
      subst hk
      rw [he41, stepsFirework_succ]
      have hpos2 : (60:ℚ) < (3/2) * ((40 + 1 : ℕ) : ℚ) := by
        push_cast; norm_num
      constructor
      · rw [hstep41.1, hlh40]; push_cast; norm_num
      · rw [hstep41.2.1, if_pos hgt, if_pos hpos2]
  · rw [he41, stepsFirework_succ]
    exact hstep41.2.2 hgt i hi

/-- A concrete all-zero firework state in phase IDLE. -/
def fwIdle : FireworkState :=
  ⟨0, 0, fun _ => ⟨0, 0, 0⟩, fun _ => ⟨0, 0, 0⟩, fun _ => ⟨0, 0, 0⟩⟩

/-- `fwIdle` moved to phase LAUNCH with some accumulated height. -/
def fwLaunch : FireworkState :=
  { fwIdle with phase := 1, launchHeight := 30 }

/-- C1 counterexample: the claim as stated says the gesture-true advance
from IDLE "transitions the phase to LAUNCH and resets the launch-height
accumulator to 0", i.e. after that advance the accumulator reads 0.  In the
code the same advance also applies the 1.5 increment, so the accumulator
reads 1.5 (and EXPLODE is reached after 41, not 42, gesture-held advances). -/
theorem heart_firework_idle_reset_counterexample :
    (stepFirework zeroJsMath 1 (fun _ => ⟨0, 0, 0⟩) (fun _ => ⟨0, 0, 0⟩)
        (fun _ _ => 0) true fwIdle).phase = 1 ∧
    (stepFirework zeroJsMath 1 (fun _ => ⟨0, 0, 0⟩) (fun _ => ⟨0, 0, 0⟩)
        (fun _ _ => 0) true fwIdle).launchHeight ≠ 0 := by
  constructor
  · norm_num [stepFirework, fwIdle]
  · norm_num [stepFirework, fwIdle]

/-- Witness for `heart_firework_phase_machine`: with all-zero draws and a
single particle, 41 gesture-held advances from IDLE reach accumulator 61.5,
and a gesture drop from LAUNCH returns to IDLE. -/
theorem heart_firework_phase_machine_witness :
    fwIdle.phase = 0 ∧ fwLaunch.phase = 1 ∧
    (stepsFirework zeroJsMath 1 (fun _ => ⟨0, 0, 0⟩) (fun _ => ⟨0, 0, 0⟩)
        (fun _ _ _ => 0) true 41 fwIdle).launchHeight = (3/2) * 41 ∧
    (stepFirework zeroJsMath 1 (fun _ => ⟨0, 0, 0⟩) (fun _ => ⟨0, 0, 0⟩)
        (fun _ _ => 0) false fwLaunch).phase = 0 := by
  have h := heart_firework_phase_machine zeroJsMath 1 (fun _ => ⟨0, 0, 0⟩)
    (fun _ => ⟨0, 0, 0⟩) (fun _ _ _ => 0) (fun _ _ => 0) fwIdle fwLaunch
    rfl rfl
  exact ⟨rfl, rfl, (h.1 41 (by omega) (by omega)).1, h.2.2.1⟩

/-- C2 (amended): in the EXPLODE phase, while the gesture signal stays true
every particle whose integrated y-position falls below -100 is respawned at
the launch origin with a freshly sampled random velocity and sky-blue color
(continuous fountain), while the others keep integrating their damped,
gravity-decremented velocity and the phase stays EXPLODE; once the gesture
signal becomes false, the fountain respawn is indeed never applied, but not
because the particles freeze below the bound: the same advance exits EXPLODE
back to IDLE (phase 0) and every particle is smoothed toward the heart
targets again. -/
theorem heart_firework_explode_behavior (o : JsMath) (count : ℕ)
    (hp : ℕ → V3) (hc : ℕ → Color3) (r : ℕ → ℕ → ℚ) (s : FireworkState)
    (h2 : s.phase = 2) :
    ((stepFirework o count hp hc r true s).phase = 2) ∧
    (∀ i : ℕ, i < count → (s.pos i).y + (s.vel i).y < -100 →
      (stepFirework o count hp hc r true s).pos i
          = ⟨(r i 0 - 1/2) * 2, 60 + (r i 1 - 1/2) * 5, (r i 2 - 1/2) * 2⟩ ∧
      (stepFirework o count hp hc r true s).vel i
          = explosionVelocity o (r i 3) (r i 4) (r i 5) ∧
      (stepFirework o count hp hc r true s).col i = skyBlue) ∧
    (∀ i : ℕ, i < count → ¬ (s.pos i).y + (s.vel i).y < -100 →
      (stepFirework o count hp hc r true s).pos i
          = ⟨(s.pos i).x + (s.vel i).x, (s.pos i).y + (s.vel i).y,
             (s.pos i).z + (s.vel i).z⟩ ∧
      (stepFirework o count hp hc r true s).vel i
          = ⟨(s.vel i).x * (49/50), ((s.vel i).y - 1/50) * (49/50),
             (s.vel i).z * (49/50)⟩) ∧
    ((stepFirework o count hp hc r false s).phase = 0 ∧
     (∀ i : ℕ, i < count →
        (stepFirework o count hp hc r false s).pos i =
          ⟨smoothStep (2/25) (hp i).x (s.pos i).x,
           smoothStep (2/25) (hp i).y (s.pos i).y,
           smoothStep (2/25) (hp i).z (s.pos i).z⟩)) := by
  obtain ⟨ha, hb, hd⟩ := stepFirework_phase2_true o count hp hc r s h2
  obtain ⟨he, hf, hg⟩ := stepFirework_false o count hp hc r s
  exact ⟨ha, hb, hd, he, hg⟩

/-- A concrete one-particle EXPLODE state whose particle has sunk to
y = -200 with zero residual velocity. -/
def fwExplodeFallen : FireworkState :=
  ⟨2, 66, fun _ => ⟨0, -200, 0⟩, fun _ => ⟨1, 1, 1⟩, fun _ => ⟨0, 0, 0⟩⟩

/-- C2 counterexample: the claim says that after the gesture is released
there is "no exit transition from EXPLODE" and a spent particle "stalls in
place below the bound".  In the code, a gesture-false advance from EXPLODE
sets the phase back to 0 (IDLE) and the particle is smoothed toward the
heart target: here its position changes from (0, -200, 0) to (0, -184, 0)
even though its velocity is zero. -/
theorem heart_firework_explode_release_counterexample :
    (stepFirework zeroJsMath 1 (fun _ => ⟨0, 0, 0⟩) (fun _ => ⟨0, 0, 0⟩)
        (fun _ _ => 0) false fwExplodeFallen).phase = 0 ∧
    (stepFirework zeroJsMath 1 (fun _ => ⟨0, 0, 0⟩) (fun _ => ⟨0, 0, 0⟩)
        (fun _ _ => 0) false fwExplodeFallen).pos 0 = ⟨0, -184, 0⟩ ∧
    fwExplodeFallen.pos 0 ≠ (⟨0, -184, 0⟩ : V3) := by
  refine ⟨by norm_num [stepFirework, fwExplodeFallen], ?_, ?_⟩
  · norm_num [stepFirework, fwExplodeFallen, smoothStep]
  · norm_num [fwExplodeFallen, V3.mk.injEq]

/-- Witness for `heart_firework_explode_behavior`: the fallen particle of
`fwExplodeFallen` is respawned sky-blue while the gesture is held. -/
theorem heart_firework_explode_behavior_witness :
    fwExplodeFallen.phase = 2 ∧
    (stepFirework zeroJsMath 1 (fun _ => ⟨0, 0, 0⟩) (fun _ => ⟨0, 0, 0⟩)
        (fun _ _ => 0) true fwExplodeFallen).col 0 = skyBlue ∧
    (stepFirework zeroJsMath 1 (fun _ => ⟨0, 0, 0⟩) (fun _ => ⟨0, 0, 0⟩)
        (fun _ _ => 0) true fwExplodeFallen).phase = 2 := by
  have h := heart_firework_explode_behavior zeroJsMath 1 (fun _ => ⟨0, 0, 0⟩)
    (fun _ => ⟨0, 0, 0⟩) (fun _ _ => 0) fwExplodeFallen rfl
  exact ⟨rfl, (h.2.1 0 (by omega) (by norm_num [fwExplodeFallen])).2.2, h.1⟩

/-! ## Procedural position generators -/

/-- ECMAScript `ToIndex` of a nonnegative (possibly fractional) typed-array
length request: the integer part (`new Float32Array(q)` truncates a
fractional `q`). -/
def jsArrayLen (q : ℚ) : ℕ := ⌊q⌋₊

/-- Flatten a per-particle position function into the flat
`Float32Array`-style layout `[x0, y0, z0, x1, y1, z1, ...]`. -/
def flat3 (f : ℕ → V3) (count : ℕ) : List ℚ :=
  (List.range count).flatMap fun i => [(f i).x, (f i).y, (f i).z]

/-- A flat position array of `count` particles has `3 * count` entries. -/
theorem flat3_length (f : ℕ → V3) (count : ℕ) :
    (flat3 f count).length = 3 * count := by
  induction count with
  | zero => rfl
  | succ m ih =>
      rw [flat3, List.range_succ, List.flatMap_append] at *
      simp only [List.length_append, ih]
      simp
      omega

/-- Entry `3*i + c` of a flat position array is component `c` of particle
`i`. -/
theorem flat3_getD (f : ℕ → V3) (count i : ℕ) (hi : i < count) :
    (flat3 f count).getD (3 * i) 0 = (f i).x ∧
    (flat3 f count).getD (3 * i + 1) 0 = (f i).y ∧
    (flat3 f count).getD (3 * i + 2) 0 = (f i).z := by
  induction count with
  | zero => omega
  | succ m ih =>
      rw [flat3, List.range_succ, List.flatMap_append]
      have hlen : ((List.range m).flatMap
          fun i => [(f i).x, (f i).y, (f i).z]).length = 3 * m :=
        flat3_length f m
      rcases Nat.lt_or_ge i m with hlt | hge
      · obtain ⟨g0, g1, g2⟩ := ih hlt
        rw [flat3] at g0 g1 g2
        refine ⟨?_, ?_, ?_⟩
        · rw [List.getD_append _ _ _ _ (by rw [hlen]; omega)]; exact g0
        · rw [List.getD_append _ _ _ _ (by rw [hlen]; omega)]; exact g1
        · rw [List.getD_append _ _ _ _ (by rw [hlen]; omega)]; exact g2
      · have him : i = m := by omega
        subst him
        refine ⟨?_, ?_, ?_⟩
        · rw [List.getD_append_right _ _ _ _ (by rw [hlen])]
          rw [hlen]
          simp
        · rw [List.getD_append_right _ _ _ _ (by rw [hlen]; omega)]
          rw [hlen]
          have he : 3 * i + 1 - 3 * i = 1 := by omega
          simp [he]
        · rw [List.getD_append_right _ _ _ _ (by rw [hlen]; omega)]
          rw [hlen]
          have he : 3 * i + 2 - 3 * i = 2 := by omega
          simp [he]

/-- One galaxy particle's position (`initGalaxy` loop body).  Draw slots:
0 radius, 1-2 randomX, 3-4 randomY, 5-6 randomZ. -/
def galaxyPosition (o : JsMath) (r : ℕ → ℕ → ℚ) (i : ℕ) : V3 :=
  let radius := r i 0 * 50
  let spinAngle := radius * (1/2)
  let branchAngle := ((i % 3 : ℕ) : ℚ) * (o.pi * 2 / 3)
  let randomX := (r i 1) ^ 3 * (if r i 2 < 1/2 then 1 else -1) * (1/2 * radius)
  let randomY := (r i 3) ^ 3 * (if r i 4 < 1/2 then 1 else -1) * (1/2 * radius)
  let randomZ := (r i 5) ^ 3 * (if r i 6 < 1/2 then 1 else -1) * (1/2 * radius)
  ⟨o.cos (branchAngle + spinAngle) * radius + randomX, randomY,
   o.sin (branchAngle + spinAngle) * radius + randomZ⟩

/-- The flat position array built by `initGalaxy`. -/
def initGalaxyPositions (o : JsMath) (r : ℕ → ℕ → ℚ) (count : ℕ) : List ℚ :=
  flat3 (galaxyPosition o r) count

/-- The color mixed for a galaxy particle of the given sampled radius:
`colorInside.clone().lerp(colorOutside, radius / 50)`. -/
def galaxyMixedColor (inside outside : Color3) (radius : ℚ) : Color3 :=
  lerpColor inside outside (radius / 50)

/-- The color of galaxy particle `i` as a function of its radius draw. -/
def initGalaxyColor (inside outside : Color3) (r : ℕ → ℕ → ℚ) (i : ℕ) :
    Color3 :=
  galaxyMixedColor inside outside (r i 0 * 50)

/-- `Math.ceil(Math.sqrt(count))`, the wave grid edge. -/
def gridSizeOf (count : ℕ) : ℕ :=
  if Nat.sqrt count * Nat.sqrt count = count then Nat.sqrt count
  else Nat.sqrt count + 1

/-- One wave particle's initial position (`initWave` loop body):
a square grid with separation 2 centred at the origin. -/
def wavePosition (count i : ℕ) : V3 :=
  let gridSize := gridSizeOf count
  let offset : ℚ := ((gridSize : ℚ) * 2) / 2
  ⟨((i % gridSize : ℕ) : ℚ) * 2 - offset, 0, ((i / gridSize : ℕ) : ℚ) * 2 - offset⟩

/-- The flat position array built by `initWave`. -/
def initWavePositions (count : ℕ) : List ℚ :=
  flat3 (wavePosition count) count

/-- One rain particle's initial position (`initRain` and the rain start of
`initCatCake`): uniform in a 200-sided cube. -/
def rainPosition (r : ℕ → ℕ → ℚ) (i : ℕ) : V3 :=
  ⟨(r i 0 - 1/2) * 200, (r i 1 - 1/2) * 200, (r i 2 - 1/2) * 200⟩

/-- The flat position array built by `initRain`. -/
def initRainPositions (r : ℕ → ℕ → ℚ) (count : ℕ) : List ℚ :=
  flat3 (rainPosition r) count

/-- One sphere particle's position (`initSphere` loop body): radius 40,
spherical-uniform direction. -/
def spherePosition (o : JsMath) (r : ℕ → ℕ → ℚ) (i : ℕ) : V3 :=
  let theta := r i 0 * (o.pi * 2)
  let phi := o.acos (r i 1 * 2 - 1)
  ⟨40 * o.sin phi * o.cos theta, 40 * o.sin phi * o.sin theta, 40 * o.cos phi⟩

/-- The flat position array built by `initSphere`. -/
def initSpherePositions (o : JsMath) (r : ℕ → ℕ → ℚ) (count : ℕ) : List ℚ :=
  flat3 (spherePosition o r) count

/-- One heart particle's target position (`initHeartFirework` build loop):
the classic heart curve with coefficients 16/13/5/2, random thickness and
per-axis scale jitter. -/
def heartPosition (o : JsMath) (r : ℕ → ℕ → ℚ) (i : ℕ) : V3 :=
  let t := r i 0 * (o.pi * 2)
  let thickness := (r i 1 - 1/2) * 4
  let x := 16 * (o.sin t) ^ 3
  let y := 13 * o.cos t - 5 * o.cos (2 * t) - 2 * o.cos (3 * t) - o.cos (4 * t)
  ⟨x * ((4/5 + r i 2 * (1/5)) * (6/5)), y * ((4/5 + r i 3 * (1/5)) * (6/5)),
   thickness * 2⟩

/-- The flat heart target-position array built by `initHeartFirework`. -/
def initHeartPositions (o : JsMath) (r : ℕ → ℕ → ℚ) (count : ℕ) : List ℚ :=
  flat3 (heartPosition o r) count

/-! ## Rasterized text generator (`generateCanvasPositions`) -/

/-- The pixel scan of `generateCanvasPositions`: every third row and column
of the 512×512 raster; a pixel whose red channel exceeds 100 contributes a
world-space candidate point (centre origin, y-flip, scale 0.15).  `data` is
the raster's byte array. -/
def scanValidPoints (data : ℕ → ℕ) : List (ℚ × ℚ) :=
  (List.range 171).flatMap fun yi =>
    (List.range 171).filterMap fun xi =>
      if 100 < data ((3 * yi * 512 + 3 * xi) * 4) then
        some ((((3 * xi : ℕ) : ℚ) - 512 / 2) * (3/20),
              -((((3 * yi : ℕ) : ℚ) - 512 / 2)) * (3/20))
      else none

/-- `generateCanvasPositions`.  When the 2D context is unavailable, the
all-zero array of the requested length is returned (never null).  Otherwise
output particle `i` takes candidate point `i % candidateCount` — or the
origin when there are no candidates — plus a small random jitter
(`r i slot` are particle `i`'s three `Math.random()` draws).  `count` may be
fractional (the cat-cake effect passes `count / 4`): the typed array is
truncated to `⌊count * 3⌋` cells and the write loop covers exactly the cells
below that length, so the array is defined pointwise on them. -/
def generateCanvasPositions (ctxOk : Bool) (data : ℕ → ℕ)
    (r : ℕ → ℕ → ℚ) (count : ℚ) : List ℚ :=
  if ctxOk = false then List.replicate (jsArrayLen (count * 3)) 0
  else
    let pts := scanValidPoints data
    (List.range (jsArrayLen (count * 3))).map fun j =>
      let i := j / 3
      let p := pts.getD (i % pts.length) (0, 0)
      if j % 3 = 0 then p.1 + (r i 0 - 1/2) * (1/2)
      else if j % 3 = 1 then p.2 + (r i 1 - 1/2) * (1/2)
      else (r i 2 - 1/2) * 2

/-- For a whole-number count the truncated typed-array length is exact. -/
theorem jsArrayLen_natCast (count : ℕ) :
    jsArrayLen ((count : ℚ) * 3) = 3 * count := by
  unfold jsArrayLen
  rw [show ((count : ℚ) * 3) = ((3 * count : ℕ) : ℚ) by push_cast; ring]
  rw [Nat.floor_natCast]

/-- If no pixel passes the threshold, the scan finds no candidates. -/
theorem scanValidPoints_eq_nil (data : ℕ → ℕ) (h : ∀ i, data i ≤ 100) :
    scanValidPoints data = [] := by
  unfold scanValidPoints
  apply List.flatMap_eq_nil_iff.mpr
  intro yi _
  apply List.filterMap_eq_nil_iff.mpr
  intro xi _
  have := h ((3 * yi * 512 + 3 * xi) * 4)
  simp [Nat.not_lt.mpr this]

/-- Indexing helper: cell `k` of a mapped range. -/
theorem getD_range_map (f : ℕ → ℚ) (n k : ℕ) (hk : k < n) :
    ((List.range n).map f).getD k 0 = f k := by
  rw [List.getD_eq_getElem _ _ (by simpa using hk)]
  simp

/-- C5: the rasterized-text generator never fails at either edge case.
Without a 2D drawing context it returns the all-zero point set of the
requested length (never null); with zero bright pixels every output cell is
the origin-plus-jitter fallback, so the candidate-cycling branch — and with
it any `i % candidateCount` with `candidateCount = 0` — is never taken; in
both cases the output has exactly `3 * count` entries and the generator is
total (no crash, no division by zero). -/
theorem canvas_generator_edge_cases (data : ℕ → ℕ) (r : ℕ → ℕ → ℚ)
    (count : ℕ) (hdark : scanValidPoints data = []) :
    (generateCanvasPositions false data r (count : ℚ)
        = List.replicate (3 * count) 0) ∧
    ((generateCanvasPositions false data r (count : ℚ)).length = 3 * count) ∧
    ((generateCanvasPositions true data r (count : ℚ)).length = 3 * count) ∧
    (∀ j : ℕ, j < 3 * count →
      (generateCanvasPositions true data r (count : ℚ)).getD j 0 =
        (if j % 3 = 0 then 0 + (r (j / 3) 0 - 1/2) * (1/2)
         else if j % 3 = 1 then 0 + (r (j / 3) 1 - 1/2) * (1/2)
         else (r (j / 3) 2 - 1/2) * 2)) := by
  refine ⟨?_, ?_, ?_, fun j hj => ?_⟩
  · simp [generateCanvasPositions, jsArrayLen_natCast]
  · simp [generateCanvasPositions, jsArrayLen_natCast]
  · simp [generateCanvasPositions, jsArrayLen_natCast]
  · unfold generateCanvasPositions
    rw [if_neg (by simp), jsArrayLen_natCast, getD_range_map _ _ _ hj, hdark]
    by_cases h0 : j % 3 = 0
    · simp [h0]
    · by_cases h1 : j % 3 = 1
      · simp [h0, h1]
      · simp [h0, h1]

/-- Witness for `canvas_generator_edge_cases`: an all-dark raster with one
requested particle. -/
theorem canvas_generator_edge_cases_witness :
    (generateCanvasPositions false (fun _ => 0) (fun _ _ => 0) ((1 : ℕ) : ℚ)
        = List.replicate 3 0) ∧
    (generateCanvasPositions true (fun _ => 0) (fun _ _ => 0)
        ((1 : ℕ) : ℚ)).getD 2 0 = -1 := by
  have h := canvas_generator_edge_cases (fun _ => 0) (fun _ _ => 0) 1
    (scanValidPoints_eq_nil (fun _ => 0) (fun _ => by simp))
  refine ⟨h.1, ?_⟩
  rw [h.2.2.2 2 (by omega)]
  norm_num

/-! ## Cat-cake composite generator (`initCatCake` target build) -/

/-- JavaScript `%` (numeric remainder); for the nonnegative operands used
here it coincides with the floor remainder.  A zero modulus gives NaN in
JS; that case is modelled as 0 and proven unreachable where used. -/
def jsMod (a b : ℚ) : ℚ := if b = 0 then 0 else a - b * ⌊a / b⌋

/-- Reading a `Float32Array` at a JavaScript (possibly fractional) index:
a whole-number in-bounds index reads the cell; any other read gives
`undefined` (NaN once stored) in JS, modelled as 0 and proven unreachable
where used. -/
def readF32 (l : List ℚ) (q : ℚ) : ℚ :=
  if 0 ≤ q ∧ q.den = 1 then l.getD q.num.toNat 0 else 0

/-- A whole-number read is the plain cell read. -/
theorem readF32_natCast (l : List ℚ) (n : ℕ) :
    readF32 l ((n : ℕ) : ℚ) = l.getD n 0 := by
  unfold readF32
  rw [if_pos ⟨by positivity, by simp⟩]
  simp

/-- In-range operands: `a % b = a` for `0 ≤ a < b`. -/
theorem jsMod_eq_self (a b : ℚ) (h0 : 0 ≤ a) (hab : a < b) :
    jsMod a b = a := by
  have hb : 0 < b := lt_of_le_of_lt h0 hab
  unfold jsMod
  rw [if_neg (by linarith)]
  have : ⌊a / b⌋ = 0 := by
    rw [Int.floor_eq_zero_iff]
    constructor
    · positivity
    · rw [div_lt_one hb]; exact hab
  rw [this]
  ring

/-- `Math.floor(count * 0.4)`: the cat-cake base-cylinder band size. -/
def catCakeBaseCount (count : ℕ) : ℕ := 2 * count / 5

/-- `Math.floor(count * 0.3)`: the top-layer band size. -/
def catCakeTopCount (count : ℕ) : ℕ := 3 * count / 10

/-- `Math.floor(count * 0.05)`: the candle band size. -/
def catCakeCandleCount (count : ℕ) : ℕ := count / 20

/-- `Math.floor(count * 0.2)`: the text band size. -/
def catCakeTextCount (count : ℕ) : ℕ := count / 5

/-- The text sub-array of the cat-cake effect:
`generateCanvasPositions("生日快乐", count / 4)` — note the fractional
requested count. -/
def catCakeTextPositions (data : ℕ → ℕ) (rt : ℕ → ℕ → ℚ) (count : ℕ) :
    List ℚ :=
  generateCanvasPositions true data rt ((count : ℚ) / 4)

/-- Target position of cat-cake particle `i` (the four sequential band
loops of `initCatCake`).  The bands fill the target array in order, so the
running write index `idx` equals the particle index; indices past the four
bands form the flame subrange, which gets no precomputed target (the
freshly allocated cells stay 0). -/
def catCakeTarget (o : JsMath) (data : ℕ → ℕ) (rc rt : ℕ → ℕ → ℚ)
    (count : ℕ) (i : ℕ) : V3 :=
  let base := catCakeBaseCount count
  let top := catCakeTopCount count
  let candle := catCakeCandleCount count
  let text := catCakeTextCount count
  if i < base then
    let theta := rc i 0 * (o.pi * 2)
    let rr := o.sqrt (rc i 1) * 25
    let h := (rc i 2 - 1/2) * 15 - 10
    ⟨rr * o.cos theta, h, rr * o.sin theta⟩
  else if i < base + top then
    let theta := rc i 0 * (o.pi * 2)
    let rr := o.sqrt (rc i 1) * 18
    let h := (rc i 2 - 1/2) * 10 + 5
    ⟨rr * o.cos theta, h, rr * o.sin theta⟩
  else if i < base + top + candle then
    let theta := rc i 0 * (o.pi * 2)
    let rr := o.sqrt (rc i 1) * (3/2)
    let h := rc i 2 * 10 + 10
    ⟨rr * o.cos theta, h, rr * o.sin theta⟩
  else if i < base + top + candle + text then
    let tp := catCakeTextPositions data rt count
    let li := i - (base + top + candle)
    let tIdx := jsMod (li : ℚ) ((tp.length : ℚ) / 3) * 3
    ⟨readF32 tp tIdx, readF32 tp (tIdx + 1) - 40, readF32 tp (tIdx + 2)⟩
  else ⟨0, 0, 0⟩

/-- The flat cake-target array built by `initCatCake` (length `3 * count`,
flame subrange left at 0). -/
def initCatCakeTargets (o : JsMath) (data : ℕ → ℕ) (rc rt : ℕ → ℕ → ℚ)
    (count : ℕ) : List ℚ :=
  flat3 (catCakeTarget o data rc rt count) count

/-- The canvas generator always yields the truncated requested length. -/
theorem generateCanvasPositions_length (ctxOk : Bool) (data : ℕ → ℕ)
    (r : ℕ → ℕ → ℚ) (count : ℚ) :
    (generateCanvasPositions ctxOk data r count).length
      = jsArrayLen (count * 3) := by
  cases ctxOk <;> simp [generateCanvasPositions]

/-- The cat-cake text sub-array has `⌊3·count/4⌋` cells (truncated typed
array for the fractional request `count / 4`). -/
theorem catCakeTextPositions_length (data : ℕ → ℕ) (rt : ℕ → ℕ → ℚ)
    (count : ℕ) :
    (catCakeTextPositions data rt count).length = 3 * count / 4 := by
  rw [catCakeTextPositions, generateCanvasPositions_length]
  unfold jsArrayLen
  rw [show ((count : ℚ) / 4 * 3) = ((3 * count : ℕ) : ℚ) / ((4 : ℕ) : ℚ) by
    push_cast; ring]
  rw [Nat.floor_div_nat, Nat.floor_natCast]

/-- In the cat-cake text band the cyclic index is a whole number within the
text sub-array, so the JS reads are plain in-bounds cell reads: no
`undefined`/NaN enters the target array. -/
theorem catCakeTarget_text_band (o : JsMath) (data : ℕ → ℕ)
    (rc rt : ℕ → ℕ → ℚ) (count i : ℕ)
    (hlo : catCakeBaseCount count + catCakeTopCount count
        + catCakeCandleCount count ≤ i)
    (hhi : i < catCakeBaseCount count + catCakeTopCount count
        + catCakeCandleCount count + catCakeTextCount count) :
    catCakeTarget o data rc rt count i =
      ⟨(catCakeTextPositions data rt count).getD
          (3 * (i - (catCakeBaseCount count + catCakeTopCount count
            + catCakeCandleCount count))) 0,
       (catCakeTextPositions data rt count).getD
          (3 * (i - (catCakeBaseCount count + catCakeTopCount count
            + catCakeCandleCount count)) + 1) 0 - 40,
       (catCakeTextPositions data rt count).getD
          (3 * (i - (catCakeBaseCount count + catCakeTopCount count
            + catCakeCandleCount count)) + 2) 0⟩ := by
  have hlen := catCakeTextPositions_length data rt count
  set tp := catCakeTextPositions data rt count with htp
  set li := i - (catCakeBaseCount count + catCakeTopCount count
    + catCakeCandleCount count) with hli
  have hband : 3 * li + 2 < tp.length := by
    rw [hlen, hli]
    simp only [catCakeBaseCount, catCakeTopCount, catCakeCandleCount,
      catCakeTextCount] at hlo hhi ⊢
    omega
  have hn1 : ¬ i < catCakeBaseCount count := by
    have := Nat.le_add_right (catCakeBaseCount count)
      (catCakeTopCount count + catCakeCandleCount count)
    omega
  have hn2 : ¬ i < catCakeBaseCount count + catCakeTopCount count := by omega
  have hn3 : ¬ i < catCakeBaseCount count + catCakeTopCount count
      + catCakeCandleCount count := by omega
  have hliq : ((li : ℕ) : ℚ) < (tp.length : ℚ) / 3 := by
    rw [lt_div_iff₀ (by norm_num : (0:ℚ) < 3)]
    exact_mod_cast (by omega : li * 3 < tp.length)
  have hjs : jsMod ((li : ℕ) : ℚ) ((tp.length : ℚ) / 3) = ((li : ℕ) : ℚ) :=
    jsMod_eq_self _ _ (by positivity) hliq
  simp only [catCakeTarget, hn1, hn2, hn3, hhi, if_neg, if_pos, if_false,
    if_true, ← htp, ← hli]
  rw [hjs]
  have e0 : ((li : ℕ) : ℚ) * 3 = ((3 * li : ℕ) : ℚ) := by push_cast; ring
  have e1 : ((li : ℕ) : ℚ) * 3 + 1 = ((3 * li + 1 : ℕ) : ℚ) := by
    push_cast; ring
  have e2 : ((li : ℕ) : ℚ) * 3 + 2 = ((3 * li + 2 : ℕ) : ℚ) := by
    push_cast; ring
  rw [e1, e2, e0, readF32_natCast, readF32_natCast, readF32_natCast]

/-- C4: every generator produces exactly `particleCount` 3D points — a flat
array of `3 * particleCount` cells — for any requested count, and each cell
is a well-defined (finite) number: in this exact-rational embedding every
entry is a total rational-valued expression, the counterpart of the no
NaN/Infinity requirement, and the one delicate case (the cat-cake text band,
which indexes a truncated sub-array with a JavaScript `%` of a possibly
fractional modulus) is proven to read only whole-number in-bounds cells.
For rasterized text sampling with a nonempty candidate set, output particle
`i` receives candidate `i % candidateCount` plus jitter, so every slot is
filled even when `candidateCount < particleCount`. -/
theorem generator_output_counts (o : JsMath) (data : ℕ → ℕ)
    (r rt : ℕ → ℕ → ℚ) (count : ℕ) (ctxOk : Bool)
    (hpts : scanValidPoints data ≠ []) (i : ℕ) (hi : i < count) :
    ((initGalaxyPositions o r count).length = 3 * count) ∧
    ((initWavePositions count).length = 3 * count) ∧
    ((initRainPositions r count).length = 3 * count) ∧
    ((initSpherePositions o r count).length = 3 * count) ∧
    ((initHeartPositions o r count).length = 3 * count) ∧
    ((generateCanvasPositions ctxOk data r (count : ℚ)).length = 3 * count) ∧
    ((initCatCakeTargets o data r rt count).length = 3 * count) ∧
    ((generateCanvasPositions true data r (count : ℚ)).getD (3 * i) 0
        = ((scanValidPoints data).getD
            (i % (scanValidPoints data).length) (0, 0)).1
          + (r i 0 - 1/2) * (1/2) ∧
     (generateCanvasPositions true data r (count : ℚ)).getD (3 * i + 1) 0
        = ((scanValidPoints data).getD
            (i % (scanValidPoints data).length) (0, 0)).2
          + (r i 1 - 1/2) * (1/2) ∧
     (generateCanvasPositions true data r (count : ℚ)).getD (3 * i + 2) 0
        = (r i 2 - 1/2) * 2) ∧
    (∀ k : ℕ,
      catCakeBaseCount count + catCakeTopCount count
        + catCakeCandleCount count ≤ k →
      k < catCakeBaseCount count + catCakeTopCount count
        + catCakeCandleCount count + catCakeTextCount count →
      catCakeTarget o data r rt count k =
        ⟨(catCakeTextPositions data rt count).getD
            (3 * (k - (catCakeBaseCount count + catCakeTopCount count
              + catCakeCandleCount count))) 0,
         (catCakeTextPositions data rt count).getD
            (3 * (k - (catCakeBaseCount count + catCakeTopCount count
              + catCakeCandleCount count)) + 1) 0 - 40,
         (catCakeTextPositions data rt count).getD
            (3 * (k - (catCakeBaseCount count + catCakeTopCount count
              + catCakeCandleCount count)) + 2) 0⟩) := by
  refine ⟨flat3_length _ _, flat3_length _ _, flat3_length _ _,
    flat3_length _ _, flat3_length _ _, ?_, flat3_length _ _, ?_,
    fun k hk1 hk2 => catCakeTarget_text_band o data r rt count k hk1 hk2⟩
  · rw [generateCanvasPositions_length, jsArrayLen_natCast]
  · have h0 : 3 * i < 3 * count := by omega
    have h1 : 3 * i + 1 < 3 * count := by omega
    have h2 : 3 * i + 2 < 3 * count := by omega
    unfold generateCanvasPositions
    rw [if_neg (by simp), jsArrayLen_natCast]
    refine ⟨?_, ?_, ?_⟩
    · rw [getD_range_map _ _ _ h0]
      have : 3 * i / 3 = i := by omega
      simp [this, Nat.mul_mod_right]
    · rw [getD_range_map _ _ _ h1]
      have hd : (3 * i + 1) / 3 = i := by omega
      have hm : (3 * i + 1) % 3 = 1 := by omega
      simp [hd, hm]
    · rw [getD_range_map _ _ _ h2]
      have hd : (3 * i + 2) / 3 = i := by omega
      have hm : (3 * i + 2) % 3 = 2 := by omega
      simp [hd, hm]

/-- A raster with a single bright pixel at byte 0 (pixel (0,0)). -/
def brightData : ℕ → ℕ := fun j => if j = 0 then 255 else 0

/-- The bright pixel survives the scan, so the candidate set is nonempty. -/
theorem brightData_scan_ne_nil : scanValidPoints brightData ≠ [] := by
  have hmem : ((((3 * 0 : ℕ) : ℚ) - 512 / 2) * (3/20),
      -((((3 * 0 : ℕ) : ℚ) - 512 / 2)) * (3/20)) ∈
        scanValidPoints brightData := by
    unfold scanValidPoints
    refine List.mem_flatMap.mpr ⟨0, by simp, ?_⟩
    refine List.mem_filterMap.mpr ⟨0, by simp, ?_⟩
    simp [brightData]
  exact List.ne_nil_of_mem hmem

/-- Witness for `generator_output_counts` at `count = 1`, `i = 0`, with the
one-bright-pixel raster. -/
theorem generator_output_counts_witness :
    (initWavePositions 1).length = 3 * 1 ∧
    (generateCanvasPositions true brightData (fun _ _ => 0) ((1 : ℕ) : ℚ)).getD
        (3 * 0 + 2) 0 = ((0 : ℚ) - 1/2) * 2 := by
  have h := generator_output_counts zeroJsMath brightData (fun _ _ => 0)
    (fun _ _ => 0) 1 true brightData_scan_ne_nil 0 (by omega)
  exact ⟨h.2.1, h.2.2.2.2.2.2.2.1.2.2⟩

/-! ## Galaxy color gradient -/

/-- Squared Euclidean distance between two colors. -/
def colorDist2 (a b : Color3) : ℚ :=
  (a.r - b.r) ^ 2 + (a.g - b.g) ^ 2 + (a.b - b.b) ^ 2

/-- The squared distance of the mixed galaxy color to the inner color
scales with the square of the interpolation fraction `radius / 50`. -/
theorem colorDist2_galaxyMixedColor (inside outside : Color3) (radius : ℚ) :
    colorDist2 (galaxyMixedColor inside outside radius) inside
      = (radius / 50) ^ 2 * colorDist2 outside inside := by
  unfold colorDist2 galaxyMixedColor lerpColor
  ring

/-- C9: the galaxy generator's per-particle color is the inner color
linearly interpolated toward the outer color by `radius / 50`, and the
gradient is monotone: for two particles with sampled radii `0 ≤ ra < rb`,
particle `a`'s color is at most as far (in Euclidean distance) from the
inner color as particle `b`'s. -/
theorem galaxy_color_monotone (inside outside : Color3) (r : ℕ → ℕ → ℚ)
    (a b : ℕ) (h0 : 0 ≤ r a 0) (hab : r a 0 * 50 < r b 0 * 50) :
    initGalaxyColor inside outside r a
        = lerpColor inside outside (r a 0 * 50 / 50) ∧
    Real.sqrt (colorDist2 (initGalaxyColor inside outside r a) inside)
      ≤ Real.sqrt (colorDist2 (initGalaxyColor inside outside r b) inside) := by
  constructor
  · rfl
  · apply Real.sqrt_le_sqrt
    have hd : colorDist2 (initGalaxyColor inside outside r a) inside
        ≤ colorDist2 (initGalaxyColor inside outside r b) inside := by
      unfold initGalaxyColor
      rw [colorDist2_galaxyMixedColor, colorDist2_galaxyMixedColor]
      have hn : 0 ≤ colorDist2 outside inside := by
        unfold colorDist2; positivity
      have hfrac : (r a 0 * 50 / 50) ^ 2 ≤ (r b 0 * 50 / 50) ^ 2 := by
        have h1 : 0 ≤ r a 0 * 50 / 50 := by positivity
        have h2 : r a 0 * 50 / 50 ≤ r b 0 * 50 / 50 := by
          have := hab.le
          linarith
        exact pow_le_pow_left₀ h1 h2 2
      exact mul_le_mul_of_nonneg_right hfrac hn
    exact_mod_cast hd

/-- Witness for `galaxy_color_monotone`: draws 0 and 1 (radii 0 and 50). -/
theorem galaxy_color_monotone_witness :
    (0:ℚ) ≤ ((fun i _ => (i : ℚ)) : ℕ → ℕ → ℚ) 0 0 ∧
    Real.sqrt (colorDist2 (initGalaxyColor ⟨1, 0, 0⟩ ⟨0, 0, 1⟩
        (fun i _ => (i : ℚ)) 0) ⟨1, 0, 0⟩)
      ≤ Real.sqrt (colorDist2 (initGalaxyColor ⟨1, 0, 0⟩ ⟨0, 0, 1⟩
        (fun i _ => (i : ℚ)) 1) ⟨1, 0, 0⟩) := by
  have h := galaxy_color_monotone ⟨1, 0, 0⟩ ⟨0, 0, 1⟩ (fun i _ => (i : ℚ))
    0 1 (by norm_num) (by norm_num)
  exact ⟨by norm_num, h.2⟩

/-! ## Hand-gesture classification (`predictWebcam` in the controls
component) -/

/-- Squared Euclidean distance between two world landmarks. -/
def dist2 (a b : V3) : ℚ :=
  (a.x - b.x) ^ 2 + (a.y - b.y) ^ 2 + (a.z - b.z) ^ 2

/-- Squared hand size: wrist (landmark 0) to middle knuckle (landmark 9). -/
def handSize2 (lm : ℕ → V3) : ℚ := dist2 (lm 9) (lm 0)

/-- `isCurled` of `predictWebcam`: fingertip `tip` is curled when its
distance to the wrist is below `1.2 ×` the hand size.  Stated on squared
distances (`(6/5)² = 36/25`), which `fingerCurled_iff_sqrt` proves
equivalent to the source's `Math.sqrt` comparison. -/
def fingerCurled (lm : ℕ → V3) (tip : ℕ) : Prop :=
  dist2 (lm tip) (lm 0) < 36/25 * handSize2 lm

instance (lm : ℕ → V3) (tip : ℕ) : Decidable (fingerCurled lm tip) := by
  unfold fingerCurled
  infer_instance

/-- The fist gesture that drives the heart-firework effect: index, middle,
ring and pinky fingertips (landmarks 8, 12, 16, 20) all curled. -/
def fistGestureActive (lm : ℕ → V3) : Prop :=
  fingerCurled lm 8 ∧ fingerCurled lm 12 ∧ fingerCurled lm 16 ∧
    fingerCurled lm 20

instance (lm : ℕ → V3) : Decidable (fistGestureActive lm) := by
  unfold fistGestureActive
  infer_instance

/-- Squared distances are nonnegative. -/
theorem dist2_nonneg (a b : V3) : 0 ≤ dist2 a b := by
  unfold dist2; positivity

/-- The squared comparison coincides with the source's square-root
comparison. -/
theorem fingerCurled_iff_sqrt (lm : ℕ → V3) (tip : ℕ) :
    fingerCurled lm tip ↔
      Real.sqrt (dist2 (lm tip) (lm 0)) <
        (6/5) * Real.sqrt (handSize2 lm) := by
  have hd : (0:ℝ) ≤ (dist2 (lm tip) (lm 0) : ℚ) := by
    exact_mod_cast dist2_nonneg (lm tip) (lm 0)
  have hh : (0:ℝ) ≤ (handSize2 lm : ℚ) := by
    exact_mod_cast dist2_nonneg (lm 9) (lm 0)
  constructor
  · intro h
    have hq0 := (Rat.cast_lt (K := ℝ)).mpr h
    push_cast at hq0
    have hq : ((dist2 (lm tip) (lm 0) : ℚ) : ℝ)
        < (36/25) * ((handSize2 lm : ℚ) : ℝ) := by
      convert hq0 using 2 <;> norm_num
    have := Real.sqrt_lt_sqrt hd hq
    rwa [show (36/25 : ℝ) * ((handSize2 lm : ℚ) : ℝ)
        = (6/5) ^ 2 * ((handSize2 lm : ℚ) : ℝ) by norm_num,
      Real.sqrt_mul (by positivity) _,
      Real.sqrt_sq (by norm_num : (0:ℝ) ≤ 6/5)] at this
  · intro h
    have hsq := mul_self_lt_mul_self (Real.sqrt_nonneg _) h
    rw [Real.mul_self_sqrt hd] at hsq
    have hrhs : (6/5) * Real.sqrt (handSize2 lm)
        * ((6/5) * Real.sqrt (handSize2 lm))
        = (36/25) * ((handSize2 lm : ℚ) : ℝ) := by
      rw [show (6/5 : ℝ) * Real.sqrt (handSize2 lm)
          * ((6/5) * Real.sqrt (handSize2 lm))
          = (36/25) * (Real.sqrt (handSize2 lm)
            * Real.sqrt (handSize2 lm)) by ring,
        Real.mul_self_sqrt hh]
    rw [hrhs] at hsq
    have hcast : ((dist2 (lm tip) (lm 0) : ℚ) : ℝ)
        < ((36/25 * handSize2 lm : ℚ) : ℝ) := by
      push_cast
      exact hsq
    exact (Rat.cast_lt (K := ℝ)).mp hcast

/-- C8: a fingertip is classified curled exactly when its Euclidean distance
to the wrist is strictly below 1.2 × the wrist-to-middle-knuckle hand size;
consequently a landmark set with all four fingertip (squared) distances to
the wrist equal to 0 and positive hand size yields gesture-active for the
fist-triggered heart-firework effect, and one with every fingertip at
(squared) distance greater than (2 × hand size)² yields gesture-inactive. -/
theorem curled_finger_classification (lm : ℕ → V3) :
    (∀ tip : ℕ, fingerCurled lm tip ↔
      Real.sqrt (dist2 (lm tip) (lm 0)) <
        (6/5) * Real.sqrt (handSize2 lm)) ∧
    ((dist2 (lm 8) (lm 0) = 0 ∧ dist2 (lm 12) (lm 0) = 0 ∧
      dist2 (lm 16) (lm 0) = 0 ∧ dist2 (lm 20) (lm 0) = 0 ∧
      0 < handSize2 lm) → fistGestureActive lm) ∧
    ((4 * handSize2 lm < dist2 (lm 8) (lm 0) ∧
      4 * handSize2 lm < dist2 (lm 12) (lm 0) ∧
      4 * handSize2 lm < dist2 (lm 16) (lm 0) ∧
      4 * handSize2 lm < dist2 (lm 20) (lm 0)) → ¬ fistGestureActive lm) := by
  have hh0 : 0 ≤ handSize2 lm := dist2_nonneg (lm 9) (lm 0)
  refine ⟨fun tip => fingerCurled_iff_sqrt lm tip, fun h => ?_, fun h hfist => ?_⟩
  · obtain ⟨h8, h12, h16, h20, hpos⟩ := h
    refine ⟨?_, ?_, ?_, ?_⟩ <;> unfold fingerCurled
    · rw [h8]; positivity
    · rw [h12]; positivity
    · rw [h16]; positivity
    · rw [h20]; positivity
  · obtain ⟨c8, _, _, _⟩ := hfist
    unfold fingerCurled at c8
    have := h.1
    nlinarith

/-- A fist: every fingertip at the wrist, middle knuckle one unit away. -/
def fistHand : ℕ → V3 := fun n => if n = 9 then ⟨1, 0, 0⟩ else ⟨0, 0, 0⟩

/-- An open hand: every fingertip three units from the wrist. -/
def openHand : ℕ → V3 := fun n =>
  if n = 9 then ⟨1, 0, 0⟩ else if n = 0 then ⟨0, 0, 0⟩ else ⟨3, 0, 0⟩

/-- Witness for `curled_finger_classification`: the fist hand is active,
the open hand is not. -/
theorem curled_finger_classification_witness :
    fistGestureActive fistHand ∧ ¬ fistGestureActive openHand := by
  have h1 := (curled_finger_classification fistHand).2.1
  have h2 := (curled_finger_classification openHand).2.2
  constructor
  · exact h1 (by norm_num [fistHand, dist2, handSize2])
  · exact h2 (by norm_num [openHand, dist2, handSize2])

/-! ## Birthday-song audio (`playBirthdaySong` and the cat-cake latch) -/

/-- The audio-related state of `SceneManager`: the re-entrancy flag, whether
an audio context is open, and the number of oscillator start events issued
so far (12 per playback: one per note). -/
structure AudioState where
  isPlayingAudio : Bool
  ctxOpen : Bool
  oscStarted : ℕ
deriving DecidableEq

/-- `playBirthdaySong`: returns immediately when a playback is already
flagged; otherwise it raises the flag first and, if the host provides an
`AudioContext` class, opens a context and starts the 12 note oscillators
(if not, the flag is still raised and nothing else happens). -/
def playBirthdaySong (ctxAvail : Bool) (s : AudioState) : AudioState :=
  if s.isPlayingAudio then s
  else if ctxAvail then
    { isPlayingAudio := true, ctxOpen := true, oscStarted := s.oscStarted + 12 }
  else { s with isPlayingAudio := true }

/-- The gesture-latch-plus-audio fragment of the `initCatCake` update
callback: `isCatDetected` latches the gesture signal, and the song starts
only on the false→true edge. -/
structure CatCakeAudio where
  isCatDetected : Bool
  audio : AudioState
deriving DecidableEq

/-- One frame of the cat-cake latch logic. -/
def catCakeAudioStep (ctxAvail gesture : Bool) (s : CatCakeAudio) :
    CatCakeAudio :=
  if gesture = true ∧ s.isCatDetected = false then
    { isCatDetected := true, audio := playBirthdaySong ctxAvail s.audio }
  else if gesture = false ∧ s.isCatDetected = true then
    { s with isCatDetected := false }
  else s

/-- `n` frames of the cat-cake latch logic with a constant gesture signal. -/
def catCakeAudioRun (ctxAvail gesture : Bool) : ℕ → CatCakeAudio → CatCakeAudio
  | 0, s => s
  | n + 1, s => catCakeAudioStep ctxAvail gesture (catCakeAudioRun ctxAvail gesture n s)

/-- A frame with the gesture held and the latch already set is a no-op. -/
theorem catCakeAudioStep_latched (ctxAvail : Bool) (s : CatCakeAudio)
    (h : s.isCatDetected = true) :
    catCakeAudioStep ctxAvail true s = s := by
  simp [catCakeAudioStep, h]

/-- C10: birthday-song playback is edge-triggered and never overlaps.  With
the gesture signal held true for `n ≥ 1` consecutive frames from an
unlatched state, every frame after the first leaves the state unchanged, so
playback is started exactly once (on the false→true edge); a frame without
the gesture never starts playback; and `playBirthdaySong` returns the state
unchanged — creating no oscillators — whenever `isPlayingAudio` is already
set, so no two playbacks are ever concurrently active. -/
theorem birthday_song_edge_trigger (ctxAvail : Bool) (s : CatCakeAudio)
    (h : s.isCatDetected = false) (a : AudioState)
    (ha : a.isPlayingAudio = true) :
    (∀ n : ℕ, 1 ≤ n →
      catCakeAudioRun ctxAvail true n s = catCakeAudioRun ctxAvail true 1 s) ∧
    ((catCakeAudioRun ctxAvail true 1 s).audio
        = playBirthdaySong ctxAvail s.audio) ∧
    (∀ s2 : CatCakeAudio, (catCakeAudioStep ctxAvail false s2).audio
        = s2.audio) ∧
    (playBirthdaySong ctxAvail a = a) := by
  have hstep1 : catCakeAudioRun ctxAvail true 1 s
      = { isCatDetected := true, audio := playBirthdaySong ctxAvail s.audio } := by
    show catCakeAudioStep ctxAvail true s = _
    simp [catCakeAudioStep, h]
  refine ⟨?_, by rw [hstep1], fun s2 => ?_, by simp [playBirthdaySong, ha]⟩
  · intro n hn
    induction n with
    | zero => omega
    | succ m ih =>
        rcases Nat.eq_zero_or_pos m with hm | hm
        · subst hm; rfl
        · have hrec : catCakeAudioRun ctxAvail true (m + 1) s
              = catCakeAudioStep ctxAvail true
                  (catCakeAudioRun ctxAvail true m s) := rfl
          rw [hrec, ih hm, hstep1, catCakeAudioStep_latched]
          rfl
  · unfold catCakeAudioStep
    by_cases hd : s2.isCatDetected = true <;> simp [hd]

/-- Witness for `birthday_song_edge_trigger`: five gesture-held frames from
the pristine state start exactly 12 oscillators, and a flagged state is
returned untouched. -/
theorem birthday_song_edge_trigger_witness :
    (catCakeAudioRun true true 5 ⟨false, ⟨false, false, 0⟩⟩
      = catCakeAudioRun true true 1 ⟨false, ⟨false, false, 0⟩⟩) ∧
    playBirthdaySong true ⟨true, true, 12⟩ = ⟨true, true, 12⟩ := by
  have hth := birthday_song_edge_trigger true ⟨false, ⟨false, false, 0⟩⟩ rfl
    ⟨true, true, 12⟩ rfl
  exact ⟨hth.1 5 (by omega), hth.2.2.2⟩

/-! ## Scene lifecycle manager (`setEffect`) -/

/-- The `EffectType` enum. -/
inductive EffectType where
  | galaxy
  | wave
  | rain
  | sphere
  | creativeText
  | creativeHeartFirework
  | creativeCatCake
deriving DecidableEq

/-- The `EffectConfig` record. -/
structure EffectConfig where
  count : ℕ
  size : ℚ
  speed : ℚ
  color : Color3
deriving DecidableEq

/-- A `THREE.Points` object as tracked by the lifecycle model: its own id,
the ids and lengths of its geometry's attribute buffers, and dispose flags
for geometry and material. -/
structure PtsObj where
  oid : ℕ
  posId : ℕ
  posLen : ℕ
  colBuf : Option (ℕ × ℕ)
  geomDisposed : Bool
  matDisposed : Bool
deriving DecidableEq

/-- Lifecycle state of `SceneManager`: every points object ever created
(with dispose flags), the scene contents, the `particles` reference, the
array ids the registered update callback closes over, the audio flags, and
a fresh-id counter — every array or object allocation takes the next id, so
ids record allocation order. -/
structure MState where
  registry : List PtsObj
  scene : List ℕ
  current : Option ℕ
  closureRefs : List ℕ
  isPlayingAudio : Bool
  audioOpen : Bool
  nextId : ℕ
deriving DecidableEq

/-- The points object the `particles` field currently references. -/
def currentObj (s : MState) : Option PtsObj :=
  s.current.bind fun o => s.registry.find? fun p => p.oid = o

/-- `stopAudio`: close the context and clear the re-entrancy flag. -/
def stopAudioM (s : MState) : MState :=
  { s with isPlayingAudio := false, audioOpen := false }

/-- The cleanup prefix of `setEffect`: remove the current points object
from the scene, dispose its geometry and material, null the `particles`
reference, and drop the registered update callback. -/
def cleanupM (s : MState) : MState :=
  match s.current with
  | none => { s with closureRefs := [] }
  | some o =>
      { s with
        registry := s.registry.map fun p =>
          if p.oid = o then { p with geomDisposed := true, matDisposed := true }
          else p,
        scene := s.scene.filter fun x => x ≠ o,
        current := none,
        closureRefs := [] }

/-- Allocation summary of one `init*` body: whether the geometry gets a
color attribute, and the auxiliary arrays allocated (length, and whether
the update callback closes over the array). -/
structure EffectAllocSpec where
  colored : Bool
  aux : List (ℕ × Bool)

/-- Per-effect allocation summaries read off the `init*` bodies: galaxy
allocates positions and colors; wave just positions; rain positions plus a
captured per-particle velocities array; sphere positions; creative-text
positions and colors plus captured galaxy-target and text-target arrays;
the heart firework positions and colors plus captured heart positions,
heart colors and explosion velocities; cat-cake positions and colors plus
captured velocities, cake positions and cake colors, and the text sub-array
(allocated for `count / 4` and not referenced by the update callback). -/
def effectAllocSpec (e : EffectType) (cfg : EffectConfig) : EffectAllocSpec :=
  match e with
  | .galaxy => ⟨true, []⟩
  | .wave => ⟨false, []⟩
  | .rain => ⟨false, [(cfg.count, true)]⟩
  | .sphere => ⟨false, []⟩
  | .creativeText => ⟨true, [(3 * cfg.count, true), (3 * cfg.count, true)]⟩
  | .creativeHeartFirework =>
      ⟨true, [(3 * cfg.count, true), (3 * cfg.count, true),
        (3 * cfg.count, true)]⟩
  | .creativeCatCake =>
      ⟨true, [(cfg.count, true), (3 * cfg.count, true), (3 * cfg.count, true),
        (jsArrayLen ((cfg.count : ℚ) / 4 * 3), false)]⟩

/-- Shared build tail of every `init*`: allocate the position buffer (and,
for colored effects, the color buffer) of `3 * count` cells, the effect's
auxiliary arrays, and the points object; add it to the scene, point
`particles` at it and register the update callback's closure. -/
def buildEffect (spec : EffectAllocSpec) (count : ℕ) (s : MState) : MState :=
  let posId := s.nextId
  let colBuf : Option (ℕ × ℕ) :=
    if spec.colored then some (posId + 1, 3 * count) else none
  let auxStart := if spec.colored then posId + 2 else posId + 1
  let oid := auxStart + spec.aux.length
  let obj : PtsObj := ⟨oid, posId, 3 * count, colBuf, false, false⟩
  { registry := obj :: s.registry,
    scene := oid :: s.scene,
    current := some oid,
    closureRefs := (List.range spec.aux.length).filterMap fun k =>
      if (spec.aux.getD k (0, false)).2 then some (auxStart + k) else none,
    isPlayingAudio := s.isPlayingAudio,
    audioOpen := s.audioOpen,
    nextId := oid + 1 }

/-- `setEffect`: stop any in-progress audio, dispose and remove the
previous effect's resources, then build the chosen effect afresh. -/
def setEffect (e : EffectType) (cfg : EffectConfig) (s : MState) : MState :=
  buildEffect (effectAllocSpec e cfg) cfg.count (cleanupM (stopAudioM s))

/-- Array ids reachable from the active effect's per-frame update: the
attached geometry buffers plus the closure captures. -/
def reachableIds (s : MState) : List ℕ :=
  (match currentObj s with
   | none => []
   | some p =>
      p.posId :: (match p.colBuf with
        | none => []
        | some cb => [cb.1])) ++ s.closureRefs

/-- After a build, `particles` references the freshly created object, whose
position buffer has `3 * count` cells (and color buffer likewise when
present). -/
theorem currentObj_buildEffect (spec : EffectAllocSpec) (count : ℕ)
    (s : MState) :
    currentObj (buildEffect spec count s) = some
      ⟨(if spec.colored then s.nextId + 2 else s.nextId + 1) + spec.aux.length,
       s.nextId, 3 * count,
       if spec.colored then some (s.nextId + 1, 3 * count) else none,
       false, false⟩ := by
  unfold currentObj buildEffect
  simp [List.find?_cons]

/-- Cleanup and audio stop do not allocate. -/
theorem nextId_cleanup_stop (s : MState) :
    (cleanupM (stopAudioM s)).nextId = s.nextId := by
  unfold cleanupM stopAudioM
  cases s.current <;> rfl

/-- A build allocates strictly beyond the previous counter, and every array
id reachable from the new update callback lies in the fresh range. -/
theorem reachableIds_buildEffect_bounds (spec : EffectAllocSpec) (count : ℕ)
    (s : MState) :
    ∀ j ∈ reachableIds (buildEffect spec count s),
      s.nextId ≤ j ∧ j < (buildEffect spec count s).nextId := by
  intro j hj
  rw [reachableIds, currentObj_buildEffect] at hj
  have hcl : (buildEffect spec count s).closureRefs
      = (List.range spec.aux.length).filterMap fun k =>
          if (spec.aux.getD k (0, false)).2 then
            some ((if spec.colored then s.nextId + 2 else s.nextId + 1) + k)
          else none := rfl
  have hnext : (buildEffect spec count s).nextId
      = (if spec.colored then s.nextId + 2 else s.nextId + 1)
        + spec.aux.length + 1 := rfl
  rw [hcl] at hj
  rw [hnext]
  cases hcol : spec.colored with
  | false =>
      simp only [hcol, Bool.false_eq_true, if_false] at hj ⊢
      rcases List.mem_append.mp hj with hmem | hmem
      · simp only [List.mem_cons, List.not_mem_nil, or_false] at hmem
        omega
      · obtain ⟨k, hk, hfk⟩ := List.mem_filterMap.mp hmem
        rw [List.mem_range] at hk
        by_cases hcap : (spec.aux.getD k (0, false)).2 = true
        · rw [if_pos hcap] at hfk
          have hjk := Option.some_inj.mp hfk
          omega
        · rw [if_neg hcap] at hfk
          exact absurd hfk (by simp)
  | true =>
      simp only [hcol, if_true] at hj ⊢
      rcases List.mem_append.mp hj with hmem | hmem
      · simp only [List.mem_cons, List.not_mem_nil, or_false] at hmem
        rcases hmem with h | h <;> omega
      · obtain ⟨k, hk, hfk⟩ := List.mem_filterMap.mp hmem
        rw [List.mem_range] at hk
        by_cases hcap : (spec.aux.getD k (0, false)).2 = true
        · rw [if_pos hcap] at hfk
          have hjk := Option.some_inj.mp hfk
          omega
        · rw [if_neg hcap] at hfk
          exact absurd hfk (by simp)

/-- The dispose marking of `cleanupM` preserves object ids. -/
theorem cleanup_mark_oid (o : ℕ) (p : PtsObj) :
    ((if p.oid = o then { p with geomDisposed := true, matDisposed := true }
      else p) : PtsObj).oid = p.oid := by
  by_cases h : p.oid = o <;> simp [h]

/-- After `setEffect`, the previous points object is disposed (geometry and
material) and gone from the scene. -/
theorem setEffect_disposes_previous (e : EffectType) (cfg : EffectConfig)
    (s1 : MState) (o1 : ℕ) (h1 : s1.current = some o1)
    (hlt : o1 < s1.nextId)
    (p1 : PtsObj) (hfind : s1.registry.find? (fun p => p.oid = o1) = some p1) :
    ((setEffect e cfg s1).registry.find? (fun p => p.oid = o1)
        = some { p1 with geomDisposed := true, matDisposed := true }) ∧
    o1 ∉ (setEffect e cfg s1).scene := by
  have hp1o : p1.oid = o1 := by
    have := List.find?_some hfind
    simpa using this
  have hclean : cleanupM (stopAudioM s1) =
      { stopAudioM s1 with
        registry := (stopAudioM s1).registry.map fun p =>
          if p.oid = o1 then { p with geomDisposed := true, matDisposed := true }
          else p,
        scene := (stopAudioM s1).scene.filter fun x => x ≠ o1,
        current := none,
        closureRefs := [] } := by
    unfold cleanupM
    rw [show (stopAudioM s1).current = some o1 from h1]
  have hreg1 : (stopAudioM s1).registry = s1.registry := rfl
  have hscene1 : (stopAudioM s1).scene = s1.scene := rfl
  have hfind2 : ((s1.registry.map fun p =>
      if p.oid = o1 then { p with geomDisposed := true, matDisposed := true }
      else p).find? fun p => p.oid = o1)
      = some { p1 with geomDisposed := true, matDisposed := true } := by
    rw [List.find?_map]
    have hpred : ((fun p : PtsObj => decide (p.oid = o1)) ∘ fun p =>
        if p.oid = o1 then { p with geomDisposed := true, matDisposed := true }
        else p) = fun p : PtsObj => decide (p.oid = o1) := by
      funext p
      simp [Function.comp, cleanup_mark_oid]
    rw [hpred, hfind]
    simp [Option.map, hp1o]
  constructor
  · show ((buildEffect (effectAllocSpec e cfg) cfg.count
        (cleanupM (stopAudioM s1))).registry.find? fun p => p.oid = o1) = _
    have hhead : (buildEffect (effectAllocSpec e cfg) cfg.count
        (cleanupM (stopAudioM s1))).registry
        = (⟨(if (effectAllocSpec e cfg).colored then
              (cleanupM (stopAudioM s1)).nextId + 2
            else (cleanupM (stopAudioM s1)).nextId + 1)
              + (effectAllocSpec e cfg).aux.length,
            (cleanupM (stopAudioM s1)).nextId, 3 * cfg.count,
            (if (effectAllocSpec e cfg).colored then
              some ((cleanupM (stopAudioM s1)).nextId + 1, 3 * cfg.count)
            else none), false, false⟩ : PtsObj)
          :: (cleanupM (stopAudioM s1)).registry := rfl
    rw [hhead, List.find?_cons_of_neg, hclean]
    · show ((s1.registry.map fun p =>
        if p.oid = o1 then { p with geomDisposed := true, matDisposed := true }
        else p).find? fun p => p.oid = o1) = _
      exact hfind2
    · have hn := nextId_cleanup_stop s1
      have hn2 : (stopAudioM s1).nextId = s1.nextId := rfl
      simp only [decide_eq_true_eq]
      cases hcol : (effectAllocSpec e cfg).colored <;> simp [hcol, hn, hn2] <;>
        omega
  · intro hmem
    have hscene : (setEffect e cfg s1).scene
        = ((if (effectAllocSpec e cfg).colored then
              (cleanupM (stopAudioM s1)).nextId + 2
            else (cleanupM (stopAudioM s1)).nextId + 1)
              + (effectAllocSpec e cfg).aux.length)
          :: (cleanupM (stopAudioM s1)).scene := rfl
    rw [hscene, hclean] at hmem
    rcases List.mem_cons.mp hmem with h | h
    · have hn := nextId_cleanup_stop s1
      have hn2 : (stopAudioM s1).nextId = s1.nextId := rfl
      cases hcol : (effectAllocSpec e cfg).colored <;>
        rw [hcol] at h <;> simp at h <;> omega
    · have := List.mem_filter.mp h
      simp at this

/-- A build preserves the audio flags of the state it starts from. -/
theorem buildEffect_audio (spec : EffectAllocSpec) (count : ℕ) (s : MState) :
    (buildEffect spec count s).isPlayingAudio = s.isPlayingAudio ∧
    (buildEffect spec count s).audioOpen = s.audioOpen := ⟨rfl, rfl⟩

/-- Cleanup after the audio stop leaves both audio flags cleared. -/
theorem cleanup_stop_audio (s : MState) :
    (cleanupM (stopAudioM s)).isPlayingAudio = false ∧
    (cleanupM (stopAudioM s)).audioOpen = false := by
  unfold cleanupM stopAudioM
  cases s.current <;> exact ⟨rfl, rfl⟩

/-- C3: switching effects fully replaces particle state.  After
`setEffect B cfgB` following `setEffect A cfgA`, the active points object's
position buffer — and its color buffer whenever the effect defines one —
has length `3 * cfgB.count` (which differs from `3 * cfgA.count` whenever
the counts differ); the previous effect's points object has its geometry
and material disposed and is no longer in the scene; every array id
reachable from the new effect's per-frame update callback was allocated
after every id reachable from the old one (so no array owned by A remains
reachable); and both audio flags are cleared by the switch's initial
`stopAudio`. -/
theorem effect_switch_replaces_state (eA eB : EffectType)
    (cfgA cfgB : EffectConfig) (s0 : MState) :
    (∃ p : PtsObj,
      currentObj (setEffect eB cfgB (setEffect eA cfgA s0)) = some p ∧
      p.posLen = 3 * cfgB.count ∧
      (∀ cid len : ℕ, p.colBuf = some (cid, len) → len = 3 * cfgB.count) ∧
      (cfgB.count ≠ cfgA.count → p.posLen ≠ 3 * cfgA.count)) ∧
    (∀ o1 : ℕ, (setEffect eA cfgA s0).current = some o1 →
      (∃ p1 : PtsObj,
        (setEffect eB cfgB (setEffect eA cfgA s0)).registry.find?
            (fun p => p.oid = o1) = some p1 ∧
        p1.geomDisposed = true ∧ p1.matDisposed = true) ∧
      o1 ∉ (setEffect eB cfgB (setEffect eA cfgA s0)).scene) ∧
    (∀ i ∈ reachableIds (setEffect eA cfgA s0),
      ∀ j ∈ reachableIds (setEffect eB cfgB (setEffect eA cfgA s0)), i ≠ j) ∧
    ((setEffect eB cfgB (setEffect eA cfgA s0)).isPlayingAudio = false ∧
     (setEffect eB cfgB (setEffect eA cfgA s0)).audioOpen = false) := by
  set s1 := setEffect eA cfgA s0 with hs1def
  have hB : setEffect eB cfgB s1
      = buildEffect (effectAllocSpec eB cfgB) cfgB.count
          (cleanupM (stopAudioM s1)) := rfl
  refine ⟨?_, ?_, ?_, ?_⟩
  · refine ⟨_, by rw [hB]; exact currentObj_buildEffect _ _ _, rfl, ?_, ?_⟩
    · intro cid len hcb
      cases hcol : (effectAllocSpec eB cfgB).colored <;> rw [hcol] at hcb
      · simp at hcb
      · simp at hcb
        omega
    · intro hne
      simp only []
      omega
  · intro o1 h1
    have hcurA : s1.current
        = some ((if (effectAllocSpec eA cfgA).colored then
            (cleanupM (stopAudioM s0)).nextId + 2
          else (cleanupM (stopAudioM s0)).nextId + 1)
            + (effectAllocSpec eA cfgA).aux.length) := rfl
    have hnextA : s1.nextId
        = ((if (effectAllocSpec eA cfgA).colored then
            (cleanupM (stopAudioM s0)).nextId + 2
          else (cleanupM (stopAudioM s0)).nextId + 1)
            + (effectAllocSpec eA cfgA).aux.length) + 1 := rfl
    have ho1 : o1 = (if (effectAllocSpec eA cfgA).colored then
            (cleanupM (stopAudioM s0)).nextId + 2
          else (cleanupM (stopAudioM s0)).nextId + 1)
            + (effectAllocSpec eA cfgA).aux.length := by
      have := h1.symm.trans hcurA
      exact Option.some_inj.mp this
    have hlt : o1 < s1.nextId := by rw [hnextA, ho1]; omega
    have hcoA := currentObj_buildEffect (effectAllocSpec eA cfgA) cfgA.count
      (cleanupM (stopAudioM s0))
    have hfindA : s1.registry.find? (fun p => p.oid = o1) = some
        ⟨(if (effectAllocSpec eA cfgA).colored then
            (cleanupM (stopAudioM s0)).nextId + 2
          else (cleanupM (stopAudioM s0)).nextId + 1)
            + (effectAllocSpec eA cfgA).aux.length,
          (cleanupM (stopAudioM s0)).nextId, 3 * cfgA.count,
          (if (effectAllocSpec eA cfgA).colored then
            some ((cleanupM (stopAudioM s0)).nextId + 1, 3 * cfgA.count)
          else none), false, false⟩ := by
      have hunf : currentObj s1 = s1.registry.find? fun p => p.oid = o1 := by
        unfold currentObj
        rw [h1]
        rfl
      rw [← hunf]
      exact hcoA
    obtain ⟨hf, hsc⟩ := setEffect_disposes_previous eB cfgB s1 o1 h1 hlt _ hfindA
    exact ⟨⟨_, hf, rfl, rfl⟩, hsc⟩
  · intro i hi j hj
    have hbi := reachableIds_buildEffect_bounds (effectAllocSpec eA cfgA)
      cfgA.count (cleanupM (stopAudioM s0)) i hi
    have hbj := reachableIds_buildEffect_bounds (effectAllocSpec eB cfgB)
      cfgB.count (cleanupM (stopAudioM s1)) j (by rw [← hB]; exact hj)
    have hn1 : (cleanupM (stopAudioM s1)).nextId = s1.nextId :=
      nextId_cleanup_stop s1
    have hnextA : s1.nextId
        = ((if (effectAllocSpec eA cfgA).colored then
            (cleanupM (stopAudioM s0)).nextId + 2
          else (cleanupM (stopAudioM s0)).nextId + 1)
            + (effectAllocSpec eA cfgA).aux.length) + 1 := rfl
    have hi2 : i < s1.nextId := hbi.2
    have hj2 : s1.nextId ≤ j := by rw [← hn1]; exact hbj.1
    omega
  · rw [hB]
    rw [(buildEffect_audio _ _ _).1, (buildEffect_audio _ _ _).2]
    exact cleanup_stop_audio s1

/-- A pristine manager state (fresh `SceneManager` before any effect). -/
def initialMState : MState := ⟨[], [], none, [], false, false, 0⟩

/-- A small concrete `EffectConfig` with the given count. -/
def cfgOf (n : ℕ) : EffectConfig := ⟨n, 1/2, 1, ⟨1, 1/2, 4/5⟩⟩

/-- Witness for `effect_switch_replaces_state`: switching from galaxy
(count 2) to rain (count 3) leaves a position buffer of 9 cells and a
disposed, removed galaxy object. -/
theorem effect_switch_replaces_state_witness :
    (∃ p : PtsObj,
      currentObj (setEffect .rain (cfgOf 3)
        (setEffect .galaxy (cfgOf 2) initialMState)) = some p ∧
      p.posLen = 3 * 3) ∧
    ((setEffect .galaxy (cfgOf 2) initialMState).current = some 2 ∧
      2 ∉ (setEffect .rain (cfgOf 3)
        (setEffect .galaxy (cfgOf 2) initialMState)).scene) ∧
    (setEffect .rain (cfgOf 3)
      (setEffect .galaxy (cfgOf 2) initialMState)).isPlayingAudio = false := by
  have h := effect_switch_replaces_state EffectType.galaxy EffectType.rain
    (cfgOf 2) (cfgOf 3) initialMState
  have hcur : (setEffect .galaxy (cfgOf 2) initialMState).current = some 2 :=
    rfl
  obtain ⟨p, hp, hlen, _, _⟩ := h.1
  exact ⟨⟨p, hp, hlen⟩, ⟨hcur, (h.2.1 2 hcur).2⟩, h.2.2.2.1⟩
